import Mathlib

/-!
Shallow embedding of the Recall-OS core (src/src-tauri/src) used to check the
natural-language specification against the code.

Conventions of the embedding:
* Rust `&str` / `String` values are modelled as Lean `String` (or `List Char`
  where the code works on byte positions); Rust byte lengths are modelled by
  summing `Char.utf8Size` over the characters, which is exactly the UTF-8 byte
  count Rust's `str::len` returns.
* Fallible Rust functions (`Result<T, RecallError>`) become `Except RecallError T`;
  a Rust panic (out-of-bounds or non-boundary slice) becomes `Option.none`.
* The SQLite store is modelled as in-memory lists of rows; each Store query of
  `database/queries.rs` becomes a pure function on that state.
* Effects that leave the process (file reads, the model API, OS calls) are
  supplied by explicit environment records, so every run of the embedded code
  is a pure function of its inputs.
-/

namespace RecallOS

/-! ### UTF-8 byte-level string helpers (Rust `str` semantics) -/

/-- Byte length of a character list, matching Rust `str::len` (UTF-8 bytes). -/
def byteLen (s : List Char) : Nat :=
  (s.map Char.utf8Size).sum

/-- Take the first `n` bytes of a string as characters.  Returns `none` when
`n` is not a character boundary (that slice panics in Rust) or past the end. -/
def takeBytes (s : List Char) (n : Nat) : Option (List Char) :=
  if n = 0 then some []
  else
    match s with
    | [] => none
    | c :: rest =>
      if c.utf8Size ≤ n then
        (takeBytes rest (n - c.utf8Size)).map (c :: ·)
      else none

/-- Rust `str::is_char_boundary`: `i` is 0, the total byte length, or the
start of a character. -/
def isCharBoundary (s : List Char) (i : Nat) : Bool :=
  if i = 0 then true
  else
    match s with
    | [] => false
    | c :: rest =>
      if c.utf8Size ≤ i then isCharBoundary rest (i - c.utf8Size)
      else false

/-- Lowercasing used for the case-insensitive comparisons of the code
(`str::to_lowercase`), modelled characterwise. -/
def toLowerList (s : List Char) : List Char :=
  s.map Char.toLower

/-- Rust `str::contains` for a literal pattern: substring containment. -/
def strContains (hay pat : List Char) : Bool :=
  if pat.isPrefixOf hay then true
  else
    match hay with
    | [] => false
    | _ :: t => strContains t pat

end RecallOS

namespace RecallOS

/-! ### Error type (`src/src-tauri/src/error.rs`)

Variants that the embedded code paths construct.  `TrialLimitReached` does not
occur in `error.rs` as shipped, but `commands/ingestion.rs` pattern-matches
`RecallError::TrialLimitReached(msg)`, so the variant (and the entry check that
produces it) is code of the repository missing from the snapshot; it is
modelled from the spec below. -/

inductive RecallError where
  | Ingestion (msg : String)
  | Config (msg : String)
  | Capture (msg : String)
  | NotFound (msg : String)
  | Embedding (msg : String)
  | LlmApi (msg : String)
  | Other (msg : String)
  | TrialLimitReached (msg : String)
  deriving DecidableEq, Repr

/-! ### Data model (`src/src-tauri/src/database/models.rs`) -/

inductive FileType where
  | pdf | text | markdown | video | audio | image | screenshot | unknown
  deriving DecidableEq, Repr

/-- FileType::from_extension. -/
def FileType.fromExtension (ext : String) : FileType :=
  match (toLowerList ext.data).asString with
  | "pdf" => .pdf
  | "txt" | "text" => .text
  | "md" | "markdown" => .markdown
  | "mp4" | "mkv" | "avi" | "mov" | "webm" => .video
  | "mp3" | "wav" | "flac" | "m4a" | "ogg" => .audio
  | "png" | "jpg" | "jpeg" | "gif" | "webp" | "bmp" => .image
  | _ => .unknown

inductive DocumentStatus where
  | pending | processing | completed | failed
  deriving DecidableEq, Repr

/-- Document row (timestamps modelled as abstract instants `Nat`). -/
structure Document where
  id : String
  title : String
  filePath : String
  fileType : FileType
  fileSize : Nat
  fileHash : String
  mimeType : Option String
  createdAt : Nat
  updatedAt : Nat
  ingestedAt : Option Nat
  status : DocumentStatus
  errorMessage : Option String
  metadata : String
  deriving DecidableEq, Repr

/-- Chunk row.  `timestampStart`/`timestampEnd` are the `f64` media timestamps,
modelled as exact rationals; `topics` models the `{"topics": ...}` metadata. -/
structure ChunkRow where
  id : Nat
  documentId : String
  chunkIndex : Nat
  content : String
  tokenCount : Nat
  pageNumber : Option Nat
  timestampStart : Option Rat
  timestampEnd : Option Rat
  topics : List String
  deriving DecidableEq, Repr

/-- Embedding row of the `vec_chunks` virtual table. -/
structure EmbeddingRow where
  chunkId : Nat
  embedding : List Rat
  deriving DecidableEq, Repr

inductive SearchType where
  | vector | fts | hybrid
  deriving DecidableEq, Repr

end RecallOS

namespace RecallOS

/-! ### RAG citations (`src/src-tauri/src/rag/mod.rs`) -/

/-- Citation reference extracted from the model response (`llm::CitationRef`). -/
structure CitationRef where
  chunkId : Int
  deriving DecidableEq, Repr

/-- SourceChunk record built by the RAG engine (score values irrelevant to the
claims are modelled as exact rationals). -/
structure SourceChunk where
  chunkId : Int
  documentId : String
  documentTitle : String
  content : String
  pageNumber : Option Nat
  timestamp : Option Rat
  relevanceScore : Rat
  searchType : SearchType
  deriving DecidableEq, Repr

structure Citation where
  chunkId : Int
  documentId : String
  documentTitle : String
  contentSnippet : String
  pageNumber : Option Nat
  timestamp : Option Rat
  relevanceScore : Rat
  deriving DecidableEq, Repr

/-- truncate_snippet of `rag/mod.rs`: keep the text when its byte length fits,
otherwise take the `maxLen`-byte prefix and append `"..."`.  The prefix is a
byte slice, so a `maxLen` that is not a character boundary panics (`none`). -/
def truncateSnippet (text : String) (maxLen : Nat) : Option String :=
  if byteLen text.data ≤ maxLen then some text
  else (takeBytes text.data maxLen).map (fun p => (p ++ "...".data).asString)

/-- Lookup in the `HashMap` the Rust code collects from `sources`; a later
source with the same chunk id overwrites an earlier one. -/
def sourceForId (sources : List SourceChunk) (id : Int) : Option SourceChunk :=
  sources.reverse.find? (fun s => s.chunkId = id)

/-- RagEngine::build_citations: join each citation ref to its source chunk,
silently dropping refs without a source; `none` when a snippet truncation
panics. -/
def buildCitations (refs : List CitationRef) (sources : List SourceChunk) :
    Option (List Citation) :=
  match refs with
  | [] => some []
  | r :: rest =>
    match sourceForId sources r.chunkId with
    | none => buildCitations rest sources
    | some s =>
      match truncateSnippet s.content 200 with
      | none => none
      | some snip =>
        (buildCitations rest sources).map
          (fun cits =>
            { chunkId := r.chunkId
              documentId := s.documentId
              documentTitle := s.documentTitle
              contentSnippet := snip
              pageNumber := s.pageNumber
              timestamp := s.timestamp
              relevanceScore := s.relevanceScore } :: cits)

end RecallOS

namespace RecallOS

/-! ### Path normalization (`src/src-tauri/src/database/queries.rs`) -/

/-- Replace every `'/'` by `'\'`, the first `replace` of the fallback branch of
`normalize_path` (a single-character pattern replaces characterwise). -/
def slashToBack (s : List Char) : List Char :=
  s.map (fun c => if c = '/' then '\\' else c)

/-- Left-to-right non-overlapping replacement of `"\\\\"` (two backslashes) by
`"\\"` (one), the second `replace` of the fallback branch. -/
def collapseBackslashes : List Char → List Char
  | [] => []
  | [c] => [c]
  | c1 :: c2 :: rest =>
    if c1 = '\\' ∧ c2 = '\\' then '\\' :: collapseBackslashes rest
    else c1 :: collapseBackslashes (c2 :: rest)

/-- Fallback branch of `normalize_path`, taken when `Path::canonicalize`
fails: `path.replace('/', "\\").replace("\\\\", "\\")`. -/
def fallbackNormalize (p : String) : String :=
  (collapseBackslashes (slashToBack p.data)).asString

/-- Windows extended-length path marker `\\?\` stripped from canonical paths. -/
def longPathMarker : List Char := ['\\', '\\', '?', '\\']

/-- normalize_path: canonicalize via the file system (modelled by the oracle
`canon`, `none` when the path cannot be resolved on disk); on success strip
the `\\?\` marker, on failure fall back to string normalization. -/
def normalizePath (canon : String → Option String) (p : String) : String :=
  match canon p with
  | some canonical =>
    if longPathMarker.isPrefixOf canonical.data then
      (canonical.data.drop longPathMarker.length).asString
    else canonical
  | none => fallbackNormalize p

/-! ### Capture filter (`src/src-tauri/src/capture/filter.rs`) -/

/-- DEFAULT_PRIVACY_BLACKLIST patterns matched against window titles. -/
def defaultPrivacyBlacklist : List String :=
  ["password", "private", "incognito", "bank", "1password", "lastpass",
   "bitwarden", "keychain", "credential", "secret", "vault", "authenticator",
   "otp", "2fa", "login", "sign in", "signin"]

inductive AppFilterMode where
  | none | whitelist | blacklist
  deriving DecidableEq, Repr

structure AppFilter where
  mode : AppFilterMode
  appList : List String
  usePrivacyBlacklist : Bool
  deriving Repr

/-- AppFilter::new always enables the privacy blacklist. -/
def AppFilter.new (mode : AppFilterMode) (appList : List String) : AppFilter :=
  { mode, appList, usePrivacyBlacklist := true }

/-- AppFilter::matches_privacy_blacklist: the lowercased window title contains
some built-in pattern. -/
def AppFilter.matchesPrivacyBlacklist (windowTitle : String) : Bool :=
  defaultPrivacyBlacklist.any
    (fun pat => strContains (toLowerList windowTitle.data) pat.data)

/-- AppFilter::is_in_list: the lowercased app name contains some lowercased
configured entry. -/
def AppFilter.isInList (self : AppFilter) (appName : String) : Bool :=
  self.appList.any
    (fun entry => strContains (toLowerList appName.data) (toLowerList entry.data))

/-- AppFilter::should_capture: privacy blacklist first, then the user rule. -/
def AppFilter.shouldCapture (self : AppFilter) (appName windowTitle : String) : Bool :=
  if self.usePrivacyBlacklist ∧ AppFilter.matchesPrivacyBlacklist windowTitle then
    false
  else
    match self.mode with
    | .none => true
    | .whitelist => self.isInList appName
    | .blacklist => !self.isInList appName

end RecallOS

namespace RecallOS

/-! ### Chunker (`src/src-tauri/src/ingestion/chunker.rs`)

The tokenizer (`tiktoken` cl100k_base) is external state; it is modelled by an
oracle `bpe : List Char → Nat` giving `encode_with_special_tokens(text).len()`.
All positions are UTF-8 byte indices, as in the Rust code. -/

/-- Chunker::floor_char_boundary: the largest valid boundary `≤ index`
(clamped to the byte length). -/
def floorCharBoundary (text : List Char) (index : Nat) : Nat :=
  if byteLen text ≤ index then byteLen text
  else if isCharBoundary text index then index
  else
    match index with
    | 0 => 0
    | i + 1 => floorCharBoundary text i

/-- Loop `while end > lo && !text.is_char_boundary(end) { end -= 1 }`. -/
def boundaryDown (text : List Char) (lo i : Nat) : Nat :=
  if lo < i ∧ ¬ isCharBoundary text i then
    match i with
    | 0 => 0
    | j + 1 => boundaryDown text lo j
  else i

/-- Loop `while i < text_len && !text.is_char_boundary(i) { i += 1 }`. -/
def boundaryUp (text : List Char) (i : Nat) : Nat :=
  if h : i < byteLen text ∧ ¬ isCharBoundary text i then
    boundaryUp text (i + 1)
  else i
termination_by byteLen text - i
decreasing_by omega

/-- Byte slice `text[a..b]` as characters (characters whose byte span lies
inside `[a, b)`; coincides with the Rust slice when `a` and `b` are
boundaries). -/
def sliceBytesAux (s : List Char) (pos a b : Nat) : List Char :=
  match s with
  | [] => []
  | c :: rest =>
    if pos < a then sliceBytesAux rest (pos + c.utf8Size) a b
    else if pos + c.utf8Size ≤ b then c :: sliceBytesAux rest (pos + c.utf8Size) a b
    else []

def sliceBytes (s : List Char) (a b : Nat) : List Char :=
  sliceBytesAux s 0 a b

/-- Rust `str::rfind(pred)`: byte offset of the last character satisfying the
predicate, scanning the given slice. -/
def rfindBytePosAux (s : List Char) (p : Char → Bool) (pos : Nat)
    (acc : Option Nat) : Option Nat :=
  match s with
  | [] => acc
  | c :: rest =>
    rfindBytePosAux rest p (pos + c.utf8Size) (if p c then some pos else acc)

def rfindBytePos (s : List Char) (p : Char → Bool) : Option Nat :=
  rfindBytePosAux s p 0 none

/-- Rust `str::trim` (whitespace stripped from both ends). -/
def trimList (s : List Char) : List Char :=
  ((s.dropWhile Char.isWhitespace).reverse.dropWhile Char.isWhitespace).reverse

structure Chunker where
  chunkSize : Nat
  overlap : Nat
  deriving DecidableEq, Repr

/-- Body of one iteration of the `while start < text_len` loop of
Chunker::chunk_text: compute the adjusted window end for the window starting
at `start`. -/
def chunkWindowEnd (text : List Char) (targetChars start : Nat) : Nat :=
  let textLen := byteLen text
  let end0 := min (start + targetChars) textLen
  let end1 := boundaryDown text start end0
  if end1 < textLen ∧ start < end1 then
    let searchStart := floorCharBoundary text (end1 - targetChars / 5)
    let seg := sliceBytes text searchStart end1
    match rfindBytePos seg (fun c => c = '.' ∨ c = '!' ∨ c = '?') with
    | some pos => boundaryUp text (searchStart + pos + 1)
    | none =>
      match rfindBytePos seg (fun c => c = ' ') with
      | some pos => searchStart + pos
      | none => end1
  else end1

/-- The `while start < text_len` loop of Chunker::chunk_text, with explicit
fuel; `none` models the loop failing to make progress (which in the Rust code
is non-termination, possible only when `chunk_size < 4`). -/
def chunkTextLoop (bpe : List Char → Nat) (targetChars overlapChars : Nat)
    (text : List Char) :
    Nat → Nat → List (List Char × Nat) → Option (List (List Char × Nat))
  | 0, _, _ => none
  | fuel + 1, start, acc =>
    if start < byteLen text then
      let e := chunkWindowEnd text targetChars start
      let startSafe := floorCharBoundary text start
      let endSafe := floorCharBoundary text e
      let acc' :=
        if startSafe < endSafe then
          let chunkText := trimList (sliceBytes text startSafe endSafe)
          if chunkText.isEmpty then acc
          else acc ++ [(chunkText, bpe chunkText)]
        else acc
      let advance := max ((e - start) - overlapChars) (targetChars / 4)
      let start' := boundaryUp text (start + advance)
      chunkTextLoop bpe targetChars overlapChars text fuel start' acc'
    else some acc

/-- Chunker::chunk_text: character-approximate windowing (≈4 characters per
token); text at most `target_chars` bytes is returned as a single chunk with
its full token count. -/
def Chunker.chunkText (self : Chunker) (bpe : List Char → Nat)
    (text : List Char) : Option (List (List Char × Nat)) :=
  let charsPerToken := 4
  let targetChars := self.chunkSize * charsPerToken
  let overlapChars := self.overlap * charsPerToken
  if byteLen text ≤ targetChars then some [(text, bpe text)]
  else chunkTextLoop bpe targetChars overlapChars text (byteLen text + 1) 0 []

/-- Timed segment of extracted media content. -/
structure TimedSegment where
  startTime : Rat
  endTime : Rat
  text : String
  topics : List String
  deriving DecidableEq, Repr

/-- Normalized extraction output (`chunker.rs::ExtractedContent`). -/
inductive ExtractedContent where
  | text (text : String) (pages : Option (List String))
  | timed (segments : List TimedSegment)
  deriving DecidableEq, Repr

/-- Chunk rows built from one `chunk_text` result for plain text; indices
continue from `base`, pages carry their 1-based page number. -/
def chunkRowsOfPieces (documentId : String) (base : Nat) (page : Option Nat)
    (pieces : List (List Char × Nat)) : List ChunkRow :=
  pieces.enum.map (fun p =>
    { id := 0
      documentId := documentId
      chunkIndex := base + p.1
      content := p.2.1.asString
      tokenCount := p.2.2
      pageNumber := page
      timestampStart := none
      timestampEnd := none
      topics := [] })

/-- Per-page loop of Chunker::chunk for paged text. -/
def chunkPages (self : Chunker) (bpe : List Char → Nat) (documentId : String)
    (pages : List String) (pageNum : Nat) (acc : List ChunkRow) :
    Option (List ChunkRow) :=
  match pages with
  | [] => some acc
  | pageText :: rest =>
    match self.chunkText bpe pageText.data with
    | none => none
    | some pieces =>
      let rows := chunkRowsOfPieces documentId acc.length (some (pageNum + 1)) pieces
      chunkPages self bpe documentId rest (pageNum + 1) (acc ++ rows)

/-- Per-segment loop of Chunker::chunk for timed content: each emitted chunk
receives a linearly interpolated time window within its segment and the
segment's topics. -/
def chunkSegments (self : Chunker) (bpe : List Char → Nat) (documentId : String)
    (segments : List TimedSegment) (acc : List ChunkRow) :
    Option (List ChunkRow) :=
  match segments with
  | [] => some acc
  | seg :: rest =>
    match self.chunkText bpe seg.text.data with
    | none => none
    | some pieces =>
      let duration := seg.endTime - seg.startTime
      let chunkCount := max pieces.length 1
      let timePerChunk := duration / (chunkCount : Rat)
      let rows := pieces.enum.map (fun p =>
        let start := seg.startTime + (p.1 : Rat) * timePerChunk
        { id := 0
          documentId := documentId
          chunkIndex := acc.length + p.1
          content := p.2.1.asString
          tokenCount := p.2.2
          pageNumber := none
          timestampStart := some start
          timestampEnd := some (start + timePerChunk)
          topics := seg.topics : ChunkRow })
      chunkSegments self bpe documentId rest (acc ++ rows)

/-- Chunker::chunk: dispatch on the extracted content representation. -/
def Chunker.chunk (self : Chunker) (bpe : List Char → Nat) (documentId : String)
    (content : ExtractedContent) : Option (List ChunkRow) :=
  match content with
  | .text text pages =>
    match pages with
    | some pages => chunkPages self bpe documentId pages 0 []
    | none =>
      (self.chunkText bpe text.data).map (chunkRowsOfPieces documentId 0 none)
  | .timed segments => chunkSegments self bpe documentId segments []

end RecallOS

namespace RecallOS

/-! ### Store state and queries (`src/src-tauri/src/database/queries.rs`)

The SQLite store is modelled as in-memory row lists; `nextChunkId` models the
monotone rowid counter of the `chunks` table. -/

structure DB where
  docs : List Document
  chunks : List ChunkRow
  embeddings : List EmbeddingRow
  nextChunkId : Nat
  deriving DecidableEq, Repr

/-- Fresh store. -/
def emptyDB : DB :=
  { docs := [], chunks := [], embeddings := [], nextChunkId := 1 }

/-- Database::get_document_by_path (the lookup normalizes its argument; rows
are stored as written). -/
def getDocumentByPath (canon : String → Option String) (db : DB) (path : String) :
    Option Document :=
  db.docs.find? (fun d => d.filePath = normalizePath canon path)

/-- Database::get_document_by_hash. -/
def getDocumentByHash (db : DB) (hash : String) : Option Document :=
  db.docs.find? (fun d => d.fileHash = hash)

/-- Database::get_document. -/
def getDocument (db : DB) (id : String) : Option Document :=
  db.docs.find? (fun d => d.id = id)

/-- Database::insert_document. -/
def insertDocument (db : DB) (doc : Document) : DB :=
  { db with docs := db.docs ++ [doc] }

/-- Database::delete_document: one transaction removing the document's
embedding rows (keyed through its chunks), its chunks, and the document. -/
def deleteDocument (db : DB) (id : String) : DB :=
  let docChunkIds := (db.chunks.filter (fun c => c.documentId = id)).map (·.id)
  { db with
    embeddings := db.embeddings.filter (fun e => ¬ docChunkIds.contains e.chunkId)
    chunks := db.chunks.filter (fun c => ¬ c.documentId = id)
    docs := db.docs.filter (fun d => ¬ d.id = id) }

/-- Database::update_document_status (sets `updated_at`, and `ingested_at`
when the new status is completed). -/
def updateDocumentStatus (db : DB) (id : String) (status : DocumentStatus)
    (errorMessage : Option String) (now : Nat) : DB :=
  { db with docs := db.docs.map (fun d =>
      if d.id = id then
        { d with
          status := status
          errorMessage := errorMessage
          updatedAt := now
          ingestedAt := if status = .completed then some now else d.ingestedAt }
      else d) }

/-- Database::update_document_path: sets `file_path`, `title`, `updated_at`. -/
def updateDocumentPath (db : DB) (id newPath newTitle : String) (now : Nat) : DB :=
  { db with docs := db.docs.map (fun d =>
      if d.id = id then
        { d with filePath := newPath, title := newTitle, updatedAt := now }
      else d) }

/-- Database::update_document_title. -/
def updateDocumentTitle (db : DB) (id title : String) (now : Nat) : DB :=
  { db with docs := db.docs.map (fun d =>
      if d.id = id then { d with title := title, updatedAt := now } else d) }

/-- Rowid assignment of a chunk insertion: the rows receive consecutive ids
starting at the table's next rowid. -/
def assignIds (rows : List ChunkRow) (n : Nat) : List ChunkRow :=
  rows.enum.map (fun p => { p.2 with id := n + p.1 })

/-- Database::insert_chunks: empty input is a no-op; otherwise one transaction
that verifies the parent document of the first chunk exists, then inserts all
rows, returning their assigned rowids. -/
def insertChunks (db : DB) (rows : List ChunkRow) :
    DB × Except RecallError (List Nat) :=
  match rows with
  | [] => (db, .ok [])
  | r0 :: _ =>
    if (getDocument db r0.documentId).isSome then
      let assigned := assignIds rows db.nextChunkId
      let ids := assigned.map (·.id)
      ({ db with
         chunks := db.chunks ++ assigned
         nextChunkId := db.nextChunkId + rows.length }, .ok ids)
    else
      (db, .error (.Other ("Cannot insert chunks: document " ++ r0.documentId ++
        " does not exist")))

/-- Database::insert_embeddings: lengths must match; one transaction. -/
def insertEmbeddings (db : DB) (chunkIds : List Nat) (embeddings : List (List Rat)) :
    DB × Except RecallError Unit :=
  if chunkIds.length ≠ embeddings.length then
    (db, .error (.Other "Mismatched chunk_ids and embeddings length"))
  else
    ({ db with embeddings := db.embeddings ++
        (chunkIds.zip embeddings).map (fun p => { chunkId := p.1, embedding := p.2 }) },
     .ok ())

/-- Database::get_chunks_for_document (document's chunk rows). -/
def chunksOfDoc (db : DB) (documentId : String) : List ChunkRow :=
  db.chunks.filter (fun c => c.documentId = documentId)

/-- Embedding rows belonging to a document (keyed through its chunk ids). -/
def embeddingsOfDoc (db : DB) (documentId : String) : List EmbeddingRow :=
  db.embeddings.filter (fun e => (chunksOfDoc db documentId).any (fun c => c.id = e.chunkId))

end RecallOS

namespace RecallOS

/-! ### Ingestion engine (`src/src-tauri/src/ingestion/mod.rs`) -/

/-- Display string of an error (`thiserror` messages), used for the stored
`error_message`. -/
def RecallError.toMessage : RecallError → String
  | .Ingestion m => "Ingestion error: " ++ m
  | .Config m => "Configuration error: " ++ m
  | .Capture m => "Screen capture error: " ++ m
  | .NotFound m => "Not found: " ++ m
  | .Embedding m => "Embedding error: " ++ m
  | .LlmApi m => "LLM API error: " ++ m
  | .Other m => m
  | .TrialLimitReached m => m

/-- MAX_FILE_SIZE of `ingestion/mod.rs` (500 MB). -/
def maxFileSize : Nat := 500 * 1024 * 1024

/-- Environment of one `process_document` run: the cancellation flag sampled
at its three checkpoints, and the results of the external extraction and
embedding calls. -/
structure ProcEnv where
  cancelBeforeStart : Bool
  cancelAfterExtract : Bool
  cancelAfterChunk : Bool
  extractResult : Except RecallError ExtractedContent
  llmConfigured : Bool
  embedResult : Except RecallError (List (List Rat))
  chunkSize : Nat
  chunkOverlap : Nat
  bpe : List Char → Nat
  time : Nat

/-- IngestionEngine::process_document: status to processing, extract, check
cancel, chunk, insert chunks, check cancel, embed and insert embeddings.
`none` models a non-terminating chunker loop. -/
def processDocument (db : DB) (doc : Document) (env : ProcEnv) :
    Option (DB × Except RecallError Unit) :=
  if env.cancelBeforeStart then some (db, .error (.Ingestion "Ingestion cancelled"))
  else
    let db := updateDocumentStatus db doc.id .processing none env.time
    if doc.fileType = .unknown then
      some (db, .error (.Ingestion "Unsupported file type"))
    else if (doc.fileType = .video ∨ doc.fileType = .audio ∨ doc.fileType = .image ∨
        doc.fileType = .screenshot) ∧ ¬ env.llmConfigured then
      some (db, .error (.Config "LLM client not configured"))
    else
      match env.extractResult with
      | .error e => some (db, .error e)
      | .ok extracted =>
        if env.cancelAfterExtract then
          some (db, .error (.Ingestion "Ingestion cancelled"))
        else
          let chunker : Chunker := ⟨env.chunkSize, env.chunkOverlap⟩
          match chunker.chunk env.bpe doc.id extracted with
          | none => none
          | some chunks =>
            if chunks.isEmpty then
              some (db, .error (.Ingestion "No content extracted from file"))
            else
              match insertChunks db chunks with
              | (db, .error e) => some (db, .error e)
              | (db, .ok chunkIds) =>
                if env.cancelAfterChunk then
                  some (db, .error (.Ingestion "Ingestion cancelled"))
                else if env.llmConfigured then
                  match env.embedResult with
                  | .error e => some (db, .error e)
                  | .ok embeddings =>
                    match insertEmbeddings db chunkIds embeddings with
                    | (db, .error e) => some (db, .error e)
                    | (db, .ok _) => some (db, .ok ())
                else some (db, .ok ())

/-- Environment of one `ingest_file` call: file-system facts about the path
(size, SHA-256, file name, extension, MIME guess), the fresh UUID, the clock,
the optional generated title, the `process_document` environment, and the
spec-modelled license state. -/
structure IngestEnv where
  canon : String → Option String
  fileSize : Nat
  fileHash : String
  fileName : String
  extension : String
  mimeType : Option String
  newDocId : String
  time : Nat
  genTitle : Option String
  proc : ProcEnv
  licensed : Bool
  trialLimit : Nat

/-- IngestionEngine::create_document. -/
def createDocument (env : IngestEnv) (path : String) : Document :=
  { id := env.newDocId
    title := env.fileName
    filePath := path
    fileType := FileType.fromExtension env.extension
    fileSize := env.fileSize
    fileHash := env.fileHash
    mimeType := env.mimeType
    createdAt := env.time
    updatedAt := env.time
    ingestedAt := none
    status := .pending
    errorMessage := none
    metadata := "{}" }

/-- Steps 4–12 of `ingest_file`: create and insert the document row, run
`process_document`, and record the final status (completed plus optional
generated title, or failed with the error message). -/
def ingestRun (db : DB) (path : String) (env : IngestEnv) :
    Option (DB × Except RecallError Document) :=
  let doc := createDocument env path
  let db := insertDocument db doc
  match processDocument db doc env.proc with
  | none => none
  | some (db, .ok _) =>
    let db := updateDocumentStatus db doc.id .completed none env.time
    let db :=
      match env.genTitle with
      | some t => updateDocumentTitle db doc.id t env.time
      | none => db
    match getDocument db doc.id with
    | some d => some (db, .ok d)
    | none => some (db, .error (.NotFound "Document not found after ingestion"))
  | some (db, .error e) =>
    let db := updateDocumentStatus db doc.id .failed (some e.toMessage) env.time
    some (db, .error e)

/-- Hash-lookup step of `ingest_file`: a completed document with the same
content hash at another path is a rename — update only path and title and
return it; otherwise ingest afresh. -/
def ingestHashBranch (db : DB) (path : String) (env : IngestEnv) :
    Option (DB × Except RecallError Document) :=
  match getDocumentByHash db env.fileHash with
  | some existing =>
    if existing.status = .completed then
      let db := updateDocumentPath db existing.id path env.fileName env.time
      match getDocument db existing.id with
      | some d => some (db, .ok d)
      | none => some (db, .error (.NotFound "Document not found after path update"))
    else ingestRun db path env
  | none => ingestRun db path env

/-- IngestionEngine::ingest_file as in the `src/` snapshot: hash the file
(size-checked), return an unchanged completed document at the same path,
delete a changed or incomplete one, then the hash-lookup rename rule, then a
fresh ingestion run. -/
def ingestFileCore (db : DB) (path : String) (env : IngestEnv) :
    Option (DB × Except RecallError Document) :=
  if maxFileSize < env.fileSize then
    some (db, .error (.Ingestion "File too large"))
  else
    match getDocumentByPath env.canon db path with
    | some existing =>
      if existing.fileHash = env.fileHash ∧ existing.status = .completed then
        some (db, .ok existing)
      else ingestHashBranch (deleteDocument db existing.id) path env
    | none => ingestHashBranch db path env

/-- Modelled from the spec: the trial-limit entry check of `ingest_file` and
its `TrialLimitReached` error variant are missing from the `src/` snapshot
(`commands/ingestion.rs` pattern-matches `RecallError::TrialLimitReached` and
notes "Trial limit is enforced inside IngestionEngine::ingest_file()", but
`error.rs` has no such variant and `ingestion/mod.rs` no such check).  Per the
spec §4.5, "a configurable document-count ceiling is enforced at the entry of
`ingest_file` (before work); exceeding it returns a typed trial-limit error",
and per `commands/license.rs` the ceiling applies only to unlicensed (trial)
use. -/
def ingestFile (db : DB) (path : String) (env : IngestEnv) :
    Option (DB × Except RecallError Document) :=
  if ¬ env.licensed ∧ env.trialLimit ≤ db.docs.length then
    some (db, .error (.TrialLimitReached "Trial limit reached"))
  else ingestFileCore db path env

/-- Store states reachable through the ingestion entry point, starting from a
fresh store. -/
inductive Reachable : DB → Prop where
  | init : Reachable emptyDB
  | ingest {db db' : DB} {path : String} {env : IngestEnv}
      {r : Except RecallError Document} :
      Reachable db → ingestFile db path env = some (db', r) → Reachable db'

end RecallOS

namespace RecallOS

/-! ### Hybrid retriever (`src/src-tauri/src/rag/retriever.rs`)

The model client and the two store search queries are external effects; the
environment supplies their results and the model counts how often each is
invoked.  `f64` scores are modelled as exact rationals. -/

structure ChunkWithScore where
  chunk : ChunkRow
  score : Rat
  searchType : SearchType
  deriving DecidableEq, Repr

/-- Counts of the external calls a retrieval performs. -/
structure RetrieveEffects where
  embedCalls : Nat
  vectorSearchCalls : Nat
  ftsCalls : Nat
  deriving DecidableEq, Repr

/-- Results the environment supplies for the store searches. -/
structure RetrieveEnv where
  embedResult : Except RecallError (List (List Rat))
  vectorRows : List (Nat × Rat)
  ftsRows : List (Nat × Rat)

/-- Whitespace splitting (Rust `split_whitespace`). -/
def splitWsAux : List Char → List Char → List (List Char)
  | [], cur => if cur.isEmpty then [] else [cur.reverse]
  | c :: rest, cur =>
    if c.isWhitespace then
      if cur.isEmpty then splitWsAux rest [] else cur.reverse :: splitWsAux rest []
    else splitWsAux rest (c :: cur)

def splitWs (s : List Char) : List (List Char) :=
  splitWsAux s []

/-- prepare_fts_query of `retriever.rs`: keep alphanumeric, whitespace, `'`,
`.` and `,`, blank out the rest; trim; drop words of byte length ≤ 1; one word
becomes a prefix query, several become a quoted phrase OR'ed with the prefix
terms.  (The `if false` guard of the first match arm never fires.) -/
def prepareFtsQuery (query : String) : String :=
  let escape := fun (c : Char) =>
    if c.isAlphanum ∨ c.isWhitespace ∨ c = '\'' ∨ c = '.' ∨ c = ',' then c else ' '
  let sanitized := trimList (query.data.map escape)
  if sanitized.isEmpty then ""
  else
    let words := (splitWs sanitized).filter (fun w => 1 < byteLen w)
    match words with
    | [] => ""
    | [w] => (w ++ ['*']).asString
    | _ =>
      let escapedQuery := sanitized.filter (fun c => ¬ c = '"')
      let phrase := "\"" ++ escapedQuery.asString ++ "\""
      let terms := String.intercalate " OR " (words.map (fun w => (w ++ ['*']).asString))
      phrase ++ " OR " ++ terms

/-- Database::vector_search (k-NN rows supplied by the environment, truncated
to `k` as the `k = ?` constraint does). -/
def dbVectorSearch (env : RetrieveEnv) (k : Nat) : List (Nat × Rat) :=
  env.vectorRows.take k

/-- Database::fts_search (match rows supplied by the environment, `LIMIT ?`). -/
def dbFtsSearch (env : RetrieveEnv) (limit : Nat) : List (Nat × Rat) :=
  env.ftsRows.take limit

/-- HybridRetriever::vector_search: embed the query (one model call), bail out
on an empty query embedding, else one store k-NN call, distances converted to
similarities `1 / (1 + d)`. -/
def vectorSearch (env : RetrieveEnv) (limit : Nat) :
    Except RecallError (List (Nat × Rat × SearchType)) × RetrieveEffects :=
  match env.embedResult with
  | .error e => (.error e, { embedCalls := 1, vectorSearchCalls := 0, ftsCalls := 0 })
  | .ok embeddings =>
    let queryEmbedding := embeddings.headD []
    if queryEmbedding.isEmpty then
      (.ok [], { embedCalls := 1, vectorSearchCalls := 0, ftsCalls := 0 })
    else
      let results := dbVectorSearch env limit
      let scored := results.map (fun p => (p.1, 1 / (1 + p.2), SearchType.vector))
      (.ok scored, { embedCalls := 1, vectorSearchCalls := 1, ftsCalls := 0 })

/-- HybridRetriever::fts_search: prepare the query, one store FTS call, BM25
scores normalized into [0, 1] by the maximum. -/
def ftsSearch (env : RetrieveEnv) (query : String) (limit : Nat) :
    Except RecallError (List (Nat × Rat × SearchType)) × RetrieveEffects :=
  let _ftsQuery := prepareFtsQuery query
  let results := dbFtsSearch env limit
  let maxScore := results.foldl (fun m p => max m p.2) (0 : Rat)
  let scored := results.map (fun p =>
    (p.1, if 0 < maxScore then p.2 / maxScore else 0, SearchType.fts))
  (.ok scored, { embedCalls := 0, vectorSearchCalls := 0, ftsCalls := 1 })

/-- Accumulate an RRF score into the score map (`HashMap` modelled as an
insertion-ordered association list, a deterministic refinement of the
unordered map). -/
def addScore (m : List (Nat × Rat)) (id : Nat) (s : Rat) : List (Nat × Rat) :=
  if m.any (fun p => p.1 = id) then
    m.map (fun p => if p.1 = id then (p.1, p.2 + s) else p)
  else m ++ [(id, s)]

/-- Record a result's origin in the search-type map. -/
def setType (m : List (Nat × SearchType)) (id : Nat) (st : SearchType) :
    List (Nat × SearchType) :=
  if m.any (fun p => p.1 = id) then
    m.map (fun p => if p.1 = id then (p.1, st) else p)
  else m ++ [(id, st)]

/-- Stable insertion sort; agrees with Rust's stable `sort_by`. -/
def insertBy (le : α → α → Bool) (x : α) : List α → List α
  | [] => [x]
  | y :: ys => if le x y then x :: y :: ys else y :: insertBy le x ys

def insertionSortBy (le : α → α → Bool) : List α → List α
  | [] => []
  | x :: xs => insertBy le x (insertionSortBy le xs)

/-- Database::get_chunks_by_ids (rows in table order). -/
def getChunksByIds (db : DB) (ids : List Nat) : List ChunkRow :=
  db.chunks.filter (fun c => ids.contains c.id)

/-- HybridRetriever::reciprocal_rank_fusion with K = 60: sum `1/(K + rank)`
over both result lists, tag origins (hybrid when in both), sort by fused score
descending, widen the candidate set under a document filter, materialize the
chunks, filter by the allow-list, and keep the top `limit`. -/
def reciprocalRankFusion (db : DB) (vectorResults ftsResults : List (Nat × Rat × SearchType))
    (limit : Nat) (documentIds : Option (List String)) : List ChunkWithScore :=
  let K : Rat := 60
  let step1 := vectorResults.enum.foldl
    (fun (acc : List (Nat × Rat) × List (Nat × SearchType)) p =>
      let score := 1 / (K + ((p.1 + 1 : Nat) : Rat))
      (addScore acc.1 p.2.1 score, setType acc.2 p.2.1 p.2.2.2))
    ([], [])
  let step2 := ftsResults.enum.foldl
    (fun (acc : List (Nat × Rat) × List (Nat × SearchType)) p =>
      let score := 1 / (K + ((p.1 + 1 : Nat) : Rat))
      let types :=
        if acc.2.any (fun q => q.1 = p.2.1) then setType acc.2 p.2.1 .hybrid
        else setType acc.2 p.2.1 p.2.2.2
      (addScore acc.1 p.2.1 score, types))
    step1
  let scored := insertionSortBy (fun a b => decide (b.2 ≤ a.2)) step2.1
  let fetchLimit := if documentIds.isSome then limit * 3 else limit
  let topIds := (scored.take fetchLimit).map (·.1)
  let chunks := getChunksByIds db topIds
  let chunkFor := fun (id : Nat) => chunks.reverse.find? (fun c => c.id = id)
  let results := (scored.take fetchLimit).filterMap (fun p =>
    (chunkFor p.1).bind (fun chunk =>
      match documentIds with
      | some docIds =>
        if ¬ docIds.contains chunk.documentId then none
        else some { chunk := chunk, score := p.2,
                    searchType := ((step2.2.find? (fun q => q.1 = p.1)).map (·.2)).getD .vector }
      | none =>
        some { chunk := chunk, score := p.2,
               searchType := ((step2.2.find? (fun q => q.1 = p.1)).map (·.2)).getD .vector }))
  results.take limit

/-- HybridRetriever::retrieve: both legs (each leg's errors are swallowed by
`unwrap_or_default`), then reciprocal rank fusion. -/
def retrieve (db : DB) (env : RetrieveEnv) (query : String) (limit : Nat)
    (documentIds : Option (List String)) :
    Except RecallError (List ChunkWithScore) × RetrieveEffects :=
  let vres := vectorSearch env (limit * 2)
  let fres := ftsSearch env query (limit * 2)
  let vectorResults := match vres.1 with | .ok v => v | .error _ => []
  let ftsResults := match fres.1 with | .ok v => v | .error _ => []
  let merged := reciprocalRankFusion db vectorResults ftsResults limit documentIds
  (.ok merged,
   { embedCalls := vres.2.embedCalls + fres.2.embedCalls
     vectorSearchCalls := vres.2.vectorSearchCalls + fres.2.vectorSearchCalls
     ftsCalls := vres.2.ftsCalls + fres.2.ftsCalls })

end RecallOS

namespace RecallOS

/-! ### Capture manager (`src/src-tauri/src/capture/mod.rs`) -/

inductive CaptureMode where
  | fullScreen | activeWindow
  deriving DecidableEq, Repr

/-- Foreground-window information (`filter.rs::AppInfo`). -/
structure AppInfo where
  processName : String
  windowTitle : String
  isForeground : Bool
  deriving DecidableEq, Repr

/-- Capturer::capture result. -/
structure CaptureResult where
  filePath : String
  fileSize : Nat
  capturedAt : Nat
  sourceApp : Option String
  windowTitle : Option String
  mode : CaptureMode
  deriving DecidableEq, Repr

/-- Environment of one capture attempt: the capturer outcome (the OS grab and
the PNG write), the hash of the written file, and the fresh UUID. -/
structure CaptureEnv where
  captureOutcome : Except RecallError CaptureResult
  fileHash : Except RecallError String
  newDocId : String

/-- CaptureManager::create_screenshot_document. -/
def createScreenshotDocument (env : CaptureEnv) (res : CaptureResult)
    (hash : String) : Document :=
  { id := env.newDocId
    title :=
      match res.sourceApp with
      | some app => "Screenshot - " ++ app
      | none => "Screenshot - " ++ toString res.capturedAt
    filePath := res.filePath
    fileType := .screenshot
    fileSize := res.fileSize
    fileHash := hash
    mimeType := some "image/png"
    createdAt := res.capturedAt
    updatedAt := res.capturedAt
    ingestedAt := none
    status := .pending
    errorMessage := none
    metadata := "{screenshot}" }

/-- Steps of `capture_and_ingest` after the filter gate: invoke the capturer
(which writes the image file), hash it, insert the document row; the
asynchronous ingestion hand-off runs in a separate task.  The boolean reports
whether the capturer was invoked. -/
def captureAfterGate (db : DB) (env : CaptureEnv) :
    DB × Except RecallError CaptureResult × Bool :=
  match env.captureOutcome with
  | .error e => (db, .error e, true)
  | .ok res =>
    match env.fileHash with
    | .error e => (db, .error e, true)
    | .ok hash =>
      let doc := createScreenshotDocument env res hash
      (insertDocument db doc, .ok res, true)

/-- CaptureManager::capture_and_ingest: in active-window mode, when foreground
window information is available, consult the filter before invoking the
capturer; a filtered window yields a Capture error with nothing written. -/
def captureAndIngest (db : DB) (mode : CaptureMode) (filter : AppFilter)
    (foreground : Option AppInfo) (env : CaptureEnv) :
    DB × Except RecallError CaptureResult × Bool :=
  if mode = .activeWindow then
    match foreground with
    | some app =>
      if ¬ filter.shouldCapture app.processName app.windowTitle then
        (db, .error (.Capture ("Window '" ++ app.windowTitle ++
          "' matches filter rules, skipping capture")), false)
      else captureAfterGate db env
    | none => captureAfterGate db env
  else captureAfterGate db env

end RecallOS


deriving instance DecidableEq for Except

namespace RecallOS

/-! ### Shared lemmas about the string helpers -/

theorem byteLen_cons (c : Char) (r : List Char) :
    byteLen (c :: r) = c.utf8Size + byteLen r := by
  simp [byteLen]

theorem length_le_byteLen (s : List Char) : s.length ≤ byteLen s := by
  induction s with
  | nil => simp [byteLen]
  | cons c r ih =>
    have := Char.utf8Size_pos c
    rw [byteLen_cons]
    simp only [List.length_cons]
    omega

theorem takeBytes_length {s : List Char} {n : Nat} {t : List Char}
    (h : takeBytes s n = some t) : t.length ≤ n := by
  induction s generalizing n t with
  | nil =>
    by_cases hn : n = 0
    · simp [takeBytes, hn] at h
      cases h
      simp
    · simp [takeBytes, hn] at h
  | cons c r ih =>
    by_cases hn : n = 0
    · simp [takeBytes, hn] at h
      cases h
      simp
    · by_cases hsz : c.utf8Size ≤ n
      · simp [takeBytes, hn, hsz] at h
        rcases h with ⟨t', ht', rfl⟩
        have h1 := ih ht'
        have h2 := Char.utf8Size_pos c
        simp only [List.length_cons]
        omega
      · simp [takeBytes, hn, hsz] at h

theorem length_asString (l : List Char) : (l.asString).length = l.length := rfl

theorem length_data (s : String) : s.length = s.data.length := rfl

/-! ### C10 -/

/-- C10: `truncate_snippet(text, 200)` is not total — on a string whose byte
index 200 falls inside a multi-byte character (199 ASCII bytes followed by the
two-byte character `é`), the byte slice `&text[..200]` is not on a character
boundary and the Rust function panics (modelled as `none`). -/
theorem truncateSnippet_panics_inside_multibyte :
    truncateSnippet (String.mk (List.replicate 199 'a' ++ ['é'])) 200 = none := by
  set_option maxRecDepth 20000 in decide

/-! ### C5 -/

theorem truncateSnippet_length {text s : String}
    (h : truncateSnippet text 200 = some s) : s.length ≤ 203 := by
  unfold truncateSnippet at h
  split at h
  · have hts : text = s := by simpa using h
    subst hts
    have h1 := length_le_byteLen text.data
    rw [length_data]
    omega
  · rcases Option.map_eq_some'.mp h with ⟨p, hp, rfl⟩
    have h1 := takeBytes_length hp
    rw [length_asString]
    simp
    omega

theorem buildCitations_snippet_bound {refs : List CitationRef}
    {sources : List SourceChunk} {cits : List Citation}
    (h : buildCitations refs sources = some cits) :
    ∀ c ∈ cits, c.contentSnippet.length ≤ 203 := by
  induction refs generalizing cits with
  | nil =>
    unfold buildCitations at h
    obtain rfl : cits = [] := by simpa using h.symm
    simp
  | cons r rest ih =>
    unfold buildCitations at h
    split at h
    · exact ih h
    · rename_i s hsrc
      split at h
      · exact absurd h (by simp)
      · rename_i snip htr
        rcases Option.map_eq_some'.mp h with ⟨cits', hcits', rfl⟩
        intro c hc
        rcases List.mem_cons.mp hc with rfl | hc'
        · exact truncateSnippet_length htr
        · exact ih hcits' c hc'

/-- Inputs showing the 200-character bound fails: a cited chunk whose content
is 201 ASCII characters. -/
def c5Sources : List SourceChunk :=
  [{ chunkId := 1
     documentId := "d1"
     documentTitle := "t1"
     content := String.mk (List.replicate 201 'a')
     pageNumber := none
     timestamp := none
     relevanceScore := 1
     searchType := .vector }]

def c5Refs : List CitationRef := [{ chunkId := 1 }]

def c5Citations : List Citation := (buildCitations c5Refs c5Sources).getD []

/-- C5, counterexample: `build_citations` produces a citation whose
`content_snippet` has 203 characters (the 200-byte prefix plus `"..."`),
refuting the 200-character bound of the claim. -/
theorem buildCitations_snippet_exceeds_200 :
    buildCitations c5Refs c5Sources = some c5Citations ∧
      ∃ c ∈ c5Citations, 200 < c.contentSnippet.length := by
  constructor
  · set_option maxRecDepth 20000 in rfl
  · set_option maxRecDepth 20000 in decide

/-- C5, amended: every citation the RAG engine builds (when the snippet
truncation does not panic) has a `content_snippet` of at most 203 characters:
the content itself when it fits in 200 bytes, else a 200-byte prefix of at
most 200 characters plus the 3-character ellipsis. -/
theorem buildCitations_snippet_le_203 (refs : List CitationRef)
    (sources : List SourceChunk) (cits : List Citation)
    (h : buildCitations refs sources = some cits) :
    ∀ c ∈ cits, c.contentSnippet.length ≤ 203 :=
  buildCitations_snippet_bound h

/-- C5, witness: the amended bound applied to the concrete citation list built
from a 201-character chunk. -/
theorem buildCitations_snippet_le_203_witness :
    c5Citations.all (fun c => decide (c.contentSnippet.length ≤ 203)) = true := by
  have h := buildCitations_snippet_le_203 c5Refs c5Sources c5Citations
    (by set_option maxRecDepth 20000 in rfl)
  exact List.all_eq_true.mpr (fun c hc => decide_eq_true (h c hc))

end RecallOS

namespace RecallOS

/-! ### C3 -/

/-- C3, counterexample: on the empty string the chunker returns one chunk
(with empty content and zero token count), not an empty chunk list — the
`text_len <= target_chars` early return fires for empty text and never drops
the empty slice. -/
theorem chunker_empty_text_one_chunk :
    (Chunker.mk 512 50).chunk (fun s => s.length) "doc-1" (.text "" none) =
      some [{ id := 0, documentId := "doc-1", chunkIndex := 0, content := "",
              tokenCount := 0, pageNumber := none, timestampStart := none,
              timestampEnd := none, topics := [] }] ∧
    ¬ (Chunker.mk 512 50).chunk (fun s => s.length) "doc-1" (.text "" none) =
        some [] := by
  constructor
  · decide
  · decide

/-- C3, amended: for plain-text input of byte length at most the
character-approximate target (`chunk_size * 4`), `Chunker::chunk` returns
exactly one chunk holding the whole text and its full token count; in
particular on the empty string it returns a single chunk with empty content
and the tokenizer's count for the empty text, not an empty list. -/
theorem chunk_short_text_single (bpe : List Char → Nat) (cs ov : Nat)
    (docId : String) (text : String) (h : byteLen text.data ≤ cs * 4) :
    (Chunker.mk cs ov).chunk bpe docId (.text text none) =
      some [{ id := 0, documentId := docId, chunkIndex := 0, content := text,
              tokenCount := bpe text.data, pageNumber := none,
              timestampStart := none, timestampEnd := none, topics := [] }] := by
  unfold Chunker.chunk Chunker.chunkText
  simp only [h, if_pos]
  rfl

/-- C3, witness: the amended statement at a concrete short text. -/
theorem chunk_short_text_single_witness :
    (Chunker.mk 512 50).chunk (fun s => s.length) "doc-1" (.text "hello" none) =
      some [{ id := 0, documentId := "doc-1", chunkIndex := 0, content := "hello",
              tokenCount := 5, pageNumber := none, timestampStart := none,
              timestampEnd := none, topics := [] }] :=
  chunk_short_text_single (fun s => s.length) 512 50 "doc-1" "hello" (by decide)

end RecallOS

namespace RecallOS

/-! ### C6 -/

/-- Separator characters the fallback normalization rewrites. -/
def isSep (c : Char) : Bool := decide (c = '/' ∨ c = '\\')

/-- Three consecutive separator characters occur somewhere in the string. -/
def hasTripleSep : List Char → Bool
  | a :: b :: c :: rest =>
    (isSep a && isSep b && isSep c) || hasTripleSep (b :: c :: rest)
  | _ => false

/-- Two consecutive backslashes occur somewhere in the string. -/
def hasDoubleB : List Char → Bool
  | a :: b :: rest =>
    (decide (a = '\\') && decide (b = '\\')) || hasDoubleB (b :: rest)
  | _ => false

/-- Three consecutive backslashes occur somewhere in the string. -/
def hasTripleB : List Char → Bool
  | a :: b :: c :: rest =>
    (decide (a = '\\') && decide (b = '\\') && decide (c = '\\')) ||
      hasTripleB (b :: c :: rest)
  | _ => false

theorem collapse_cons (x : Char) (xs : List Char) :
    ∃ l, collapseBackslashes (x :: xs) = x :: l := by
  cases xs with
  | nil => exact ⟨[], rfl⟩
  | cons y ys =>
    by_cases h : x = '\\' ∧ y = '\\'
    · obtain ⟨hx, hy⟩ := h
      subst hx
      exact ⟨collapseBackslashes ys, by simp [collapseBackslashes, hy]⟩
    · exact ⟨collapseBackslashes (y :: ys), by simp [collapseBackslashes, h]⟩

theorem collapse_eq_self_of_no_double {s : List Char}
    (h : hasDoubleB s = false) : collapseBackslashes s = s := by
  induction s using collapseBackslashes.induct with
  | case1 => rfl
  | case2 c => rfl
  | case3 c1 c2 rest hB ih =>
    simp [hasDoubleB, hB.1, hB.2] at h
  | case4 c1 c2 rest hB ih =>
    simp only [hasDoubleB, Bool.or_eq_false_iff] at h
    simp [collapseBackslashes, hB, ih h.2]

theorem no_double_after_collapse {s : List Char}
    (h : hasTripleB s = false) : hasDoubleB (collapseBackslashes s) = false := by
  induction s using collapseBackslashes.induct with
  | case1 => rfl
  | case2 c => simp [collapseBackslashes, hasDoubleB]
  | case3 c1 c2 rest hB ih =>
    obtain ⟨h1, h2⟩ := hB
    subst h1 h2
    cases rest with
    | nil => simp [collapseBackslashes, hasDoubleB]
    | cons d r =>
      simp only [hasTripleB, decide_eq_true_eq, Bool.true_and, decide_True,
        Bool.or_eq_false_iff, decide_eq_false_iff_not] at h
      have hd : ¬ d = '\\' := h.1
      have hrest : hasTripleB (d :: r) = false := by
        have h2 := h.2
        cases r with
        | nil => rfl
        | cons e r2 =>
          simp only [hasTripleB, Bool.or_eq_false_iff] at h2
          exact h2.2
      obtain ⟨l, hl⟩ := collapse_cons d r
      have ihd := ih hrest
      rw [collapseBackslashes]
      simp only [if_pos (⟨rfl, rfl⟩ : ('\\' : Char) = '\\' ∧ ('\\' : Char) = '\\')]
      rw [hl] at ihd ⊢
      simp [hasDoubleB, hd, ihd]
  | case4 c1 c2 rest hB ih =>
    have h' : hasTripleB (c2 :: rest) = false := by
      cases rest with
      | nil => rfl
      | cons d r =>
        simp only [hasTripleB, Bool.or_eq_false_iff] at h
        exact h.2
    obtain ⟨l, hl⟩ := collapse_cons c2 rest
    have ihd := ih h'
    rw [collapseBackslashes]
    simp only [if_neg hB]
    rw [hl] at ihd ⊢
    have hnb : ¬ (c1 = '\\' ∧ c2 = '\\') := hB
    simp only [hasDoubleB, Bool.or_eq_false_iff, Bool.and_eq_false_iff]
    constructor
    · by_cases hc1 : c1 = '\\'
      · right
        by_cases hc2 : c2 = '\\'
        · exact absurd ⟨hc1, hc2⟩ hnb
        · simp [hc2]
      · left
        simp [hc1]
    · exact ihd

theorem collapse_subset {c : Char} {s : List Char}
    (h : c ∈ collapseBackslashes s) : c ∈ s := by
  induction s using collapseBackslashes.induct with
  | case1 => simp_all [collapseBackslashes]
  | case2 x => simp_all [collapseBackslashes]
  | case3 c1 c2 rest hB ih =>
    rw [collapseBackslashes, if_pos hB] at h
    rcases List.mem_cons.mp h with rfl | h'
    · simp [hB.1]
    · simp [ih h']
  | case4 c1 c2 rest hB ih =>
    rw [collapseBackslashes, if_neg hB] at h
    rcases List.mem_cons.mp h with rfl | h'
    · simp
    · simp [ih h']

theorem slashToBack_no_slash (l : List Char) : ∀ c ∈ slashToBack l, ¬ c = '/' := by
  intro c hc
  simp only [slashToBack, List.mem_map] at hc
  obtain ⟨x, _, rfl⟩ := hc
  split
  · decide
  · assumption

theorem slashToBack_eq_self {l : List Char} (h : ∀ c ∈ l, ¬ c = '/') :
    slashToBack l = l := by
  induction l with
  | nil => rfl
  | cons c rest ih =>
    have hc : ¬ c = '/' := h c (by simp)
    simp only [slashToBack, List.map_cons, if_neg hc]
    have := ih (fun x hx => h x (by simp [hx]))
    simpa [slashToBack] using this

theorem isB_slashChar (x : Char) :
    decide ((if x = '/' then '\\' else x) = '\\') = isSep x := by
  by_cases hx : x = '/'
  · simp [hx, isSep]
  · simp only [if_neg hx, isSep]
    rw [decide_eq_decide]
    exact (or_iff_right hx).symm

theorem tripleB_slashToBack (l : List Char) :
    hasTripleB (slashToBack l) = hasTripleSep l := by
  induction l using hasTripleSep.induct with
  | case1 a b c rest ih =>
    simp only [slashToBack, List.map_cons] at ih ⊢
    rw [hasTripleB, hasTripleSep, isB_slashChar, isB_slashChar, isB_slashChar, ih]
  | case2 l hne =>
    match l, hne with
    | [], _ => rfl
    | [a], _ => rfl
    | [a, b], _ => rfl
    | a :: b :: c :: rest, hne => exact (hne a b c rest rfl).elim

/-- Counterexample inputs: a path of three separators, with the disk
resolution failing (the fallback branch of `normalize_path`). -/
def canonFails : String → Option String := fun _ => none

/-- C6, counterexample: `normalize_path` is not idempotent on the fallback
branch — on `"///"` one application yields two backslashes (the left-to-right
pair replacement collapses three backslashes to two), a second collapses them
to one. -/
theorem normalizePath_not_idempotent :
    ¬ normalizePath canonFails (normalizePath canonFails "///") =
        normalizePath canonFails "///" := by
  decide

/-- C6, amended: the fallback string normalization of `normalize_path` is
idempotent on every input that contains no run of three or more consecutive
separator characters (`/` or `\`); an input with such a run (e.g. `"///"`) is
collapsed further by a second application. -/
theorem normalizePath_fallback_idempotent (p : String)
    (h : hasTripleSep p.data = false) :
    normalizePath canonFails (normalizePath canonFails p) =
      normalizePath canonFails p := by
  show fallbackNormalize (fallbackNormalize p) = fallbackNormalize p
  unfold fallbackNormalize
  have hdata : ∀ l : List Char, (l.asString).data = l := fun _ => rfl
  rw [hdata]
  have h1 : slashToBack (collapseBackslashes (slashToBack p.data)) =
      collapseBackslashes (slashToBack p.data) :=
    slashToBack_eq_self
      (fun c hc => slashToBack_no_slash _ c (collapse_subset hc))
  rw [h1]
  have h2 : hasTripleB (slashToBack p.data) = false := by
    rw [tripleB_slashToBack]; exact h
  exact congrArg _ (collapse_eq_self_of_no_double (no_double_after_collapse h2))

/-- C6, witness: the amended idempotence at the concrete path `"a/b"`. -/
theorem normalizePath_fallback_idempotent_witness :
    hasTripleSep ("a/b").data = false ∧
      normalizePath canonFails (normalizePath canonFails "a/b") =
        normalizePath canonFails "a/b" :=
  ⟨by decide, normalizePath_fallback_idempotent "a/b" (by decide)⟩

end RecallOS

namespace RecallOS

/-! ### C4 -/

/-- Concrete retrieval environment for the counterexample: a non-empty query
embedding and non-empty search rows. -/
def c4Env : RetrieveEnv :=
  { embedResult := .ok [[1, 0]]
    vectorRows := [(1, 1/2)]
    ftsRows := [(1, 3)] }

/-- C4, counterexample: with `limit = 0` the retriever does return `[]`, but
it still performs one embedding call against the model client and one
full-text-search call against the store (there is no `limit == 0`
short-circuit in `HybridRetriever::retrieve`). -/
theorem retrieve_limit_zero_still_calls :
    retrieve emptyDB c4Env "saturn moons" 0 none =
      (.ok [], { embedCalls := 1, vectorSearchCalls := 1, ftsCalls := 1 }) ∧
    ¬ (retrieve emptyDB c4Env "saturn moons" 0 none).2.embedCalls = 0 := by
  constructor
  · decide
  · decide

/-- C4, amended: for every query, store state and allow-list,
`HybridRetriever::retrieve(query, 0, document_ids)` returns the empty list —
but it performs exactly one embedding call and one full-text-search call while
doing so. -/
theorem retrieve_limit_zero (db : DB) (env : RetrieveEnv) (query : String)
    (documentIds : Option (List String)) :
    (retrieve db env query 0 documentIds).1 = .ok [] ∧
    (retrieve db env query 0 documentIds).2.embedCalls = 1 ∧
    (retrieve db env query 0 documentIds).2.ftsCalls = 1 := by
  have hrrf : ∀ v f ids, reciprocalRankFusion db v f 0 ids = [] := by
    intro v f ids
    unfold reciprocalRankFusion
    simp
  have hv : (vectorSearch env 0).2.embedCalls = 1 ∧
      (vectorSearch env 0).2.ftsCalls = 0 := by
    unfold vectorSearch
    rcases env.embedResult with e | v
    · exact ⟨rfl, rfl⟩
    · dsimp only
      split
      · exact ⟨rfl, rfl⟩
      · exact ⟨rfl, rfl⟩
  have hf : (ftsSearch env query 0).2.embedCalls = 0 ∧
      (ftsSearch env query 0).2.ftsCalls = 1 := ⟨rfl, rfl⟩
  refine ⟨?_, ?_, ?_⟩
  · show (Except.ok (reciprocalRankFusion db _ _ 0 documentIds) :
      Except RecallError (List ChunkWithScore)) = .ok []
    rw [hrrf]
  · show (vectorSearch env (0 * 2)).2.embedCalls +
      (ftsSearch env query (0 * 2)).2.embedCalls = 1
    rw [show (0 * 2) = 0 from rfl, hv.1, hf.1]
  · show (vectorSearch env (0 * 2)).2.ftsCalls +
      (ftsSearch env query (0 * 2)).2.ftsCalls = 1
    rw [show (0 * 2) = 0 from rfl, hv.2, hf.2]

/-! ### C9 -/

/-- C9: with the privacy blacklist enabled, a privacy-matching foreground
window title makes an active-window capture attempt return a Capture error
before the capturer is invoked: the store is unchanged (no document row) and
the capturer never runs (no image file), for every user filter mode and app
list. -/
theorem captureAndIngest_privacy_blocks (db : DB) (filter : AppFilter)
    (app : AppInfo) (env : CaptureEnv)
    (hpriv : filter.usePrivacyBlacklist = true)
    (hmatch : AppFilter.matchesPrivacyBlacklist app.windowTitle = true) :
    captureAndIngest db .activeWindow filter (some app) env =
      (db, .error (.Capture ("Window '" ++ app.windowTitle ++
        "' matches filter rules, skipping capture")), false) := by
  have hsc : filter.shouldCapture app.processName app.windowTitle = false := by
    unfold AppFilter.shouldCapture
    simp [hpriv, hmatch]
  unfold captureAndIngest
  simp [hsc]

def c9Filter : AppFilter := AppFilter.new .whitelist ["chrome.exe"]

def c9App : AppInfo :=
  { processName := "chrome.exe", windowTitle := "1Password - Browser",
    isForeground := true }

def c9Env : CaptureEnv :=
  { captureOutcome := .ok
      { filePath := "/captures/x.png", fileSize := 10, capturedAt := 5,
        sourceApp := some "chrome.exe",
        windowTitle := some "1Password - Browser", mode := .activeWindow }
    fileHash := .ok "h9"
    newDocId := "doc-9" }

/-- C9, witness: the blocked capture at a concrete foreground window whose
title contains "1password", under a whitelist that would otherwise allow the
app. -/
theorem captureAndIngest_privacy_blocks_witness :
    captureAndIngest emptyDB .activeWindow c9Filter (some c9App) c9Env =
      (emptyDB, .error (.Capture ("Window '" ++ c9App.windowTitle ++
        "' matches filter rules, skipping capture")), false) :=
  captureAndIngest_privacy_blocks emptyDB c9Filter c9App c9Env rfl (by decide)

/-! ### C1 -/

/-- C1 (spec-modelled): when the store's document count has reached the
configured trial ceiling and no license is active, `ingest_file` returns the
typed trial-limit error at entry with the store unchanged — before any
extraction, chunking, or store write. -/
theorem ingestFile_trial_limit (db : DB) (path : String) (env : IngestEnv)
    (hlic : env.licensed = false) (hcount : env.trialLimit ≤ db.docs.length) :
    ingestFile db path env =
      some (db, .error (.TrialLimitReached "Trial limit reached")) := by
  unfold ingestFile
  rw [if_pos]
  exact ⟨by simp [hlic], hcount⟩

/-- Baseline process environment used by concrete ingestion runs. -/
def okProcEnv : ProcEnv :=
  { cancelBeforeStart := false
    cancelAfterExtract := false
    cancelAfterChunk := false
    extractResult := .ok (.text "hello world" none)
    llmConfigured := true
    embedResult := .ok [[1, 0]]
    chunkSize := 512
    chunkOverlap := 50
    bpe := fun s => s.length
    time := 1 }

def c1Doc : Document :=
  { id := "doc-0", title := "x.txt", filePath := "/tmp/x.txt", fileType := .text,
    fileSize := 1, fileHash := "h0", mimeType := none, createdAt := 0,
    updatedAt := 0, ingestedAt := some 0, status := .completed,
    errorMessage := none, metadata := "{}" }

def c1DB : DB := { docs := [c1Doc], chunks := [], embeddings := [], nextChunkId := 1 }

def c1Env : IngestEnv :=
  { canon := fun _ => none, fileSize := 3, fileHash := "h1", fileName := "y.txt",
    extension := "txt", mimeType := none, newDocId := "doc-1", time := 1,
    genTitle := none, proc := okProcEnv, licensed := false, trialLimit := 1 }

/-- C1, witness: a store already holding the trial ceiling of documents makes
the next unlicensed `ingest_file` call fail at entry. -/
theorem ingestFile_trial_limit_witness :
    ingestFile c1DB "/tmp/y.txt" c1Env =
      some (c1DB, .error (.TrialLimitReached "Trial limit reached")) :=
  ingestFile_trial_limit c1DB "/tmp/y.txt" c1Env rfl (by decide)

/-! ### C7 -/

/-- C7: when the canonical-path lookup finds a completed document with the
same content hash, a repeated `ingest_file` call is a no-op: it returns the
existing document (same id) and leaves the store untouched — no new document
row, no new chunks, no new embeddings.  (The hypotheses keep the call below
the spec-modelled trial ceiling and the file under the size cap.) -/
theorem ingestFile_unchanged_noop (db : DB) (path : String) (env : IngestEnv)
    (existing : Document)
    (hlic : env.licensed = true)
    (hsize : env.fileSize ≤ maxFileSize)
    (hfind : getDocumentByPath env.canon db path = some existing)
    (hhash : existing.fileHash = env.fileHash)
    (hstatus : existing.status = .completed) :
    ingestFile db path env = some (db, .ok existing) := by
  unfold ingestFile
  rw [if_neg (by simp [hlic])]
  unfold ingestFileCore
  rw [if_neg (by omega)]
  rw [hfind]
  simp [hhash, hstatus]

def c7Doc : Document :=
  { id := "doc-7", title := "a.txt", filePath := "C:\\docs\\a.txt",
    fileType := .text, fileSize := 11, fileHash := "h7", mimeType := none,
    createdAt := 0, updatedAt := 0, ingestedAt := some 0, status := .completed,
    errorMessage := none, metadata := "{}" }

def c7Chunk : ChunkRow :=
  { id := 1, documentId := "doc-7", chunkIndex := 0, content := "hello world",
    tokenCount := 3, pageNumber := none, timestampStart := none,
    timestampEnd := none, topics := [] }

def c7DB : DB :=
  { docs := [c7Doc], chunks := [c7Chunk],
    embeddings := [{ chunkId := 1, embedding := [1, 0] }], nextChunkId := 2 }

def c7Env : IngestEnv :=
  { canon := fun _ => some "C:\\docs\\a.txt", fileSize := 11, fileHash := "h7",
    fileName := "a.txt", extension := "txt", mimeType := none,
    newDocId := "doc-8", time := 9, genTitle := none, proc := okProcEnv,
    licensed := true, trialLimit := 25 }

/-- C7, witness: re-ingesting an unchanged completed file returns the stored
document and the identical store state. -/
theorem ingestFile_unchanged_noop_witness :
    ingestFile c7DB "C:/docs/a.txt" c7Env = some (c7DB, .ok c7Doc) :=
  ingestFile_unchanged_noop c7DB "C:/docs/a.txt" c7Env c7Doc rfl (by decide)
    (by decide) rfl rfl

end RecallOS

namespace RecallOS

/-! ### C8 -/

theorem find?_id_map_ite (l : List Document) (i : String)
    (upd : Document → Document) (hid : ∀ x, (upd x).id = x.id) :
    (l.map (fun x => if x.id = i then upd x else x)).find? (fun x => x.id = i) =
      (l.find? (fun x => x.id = i)).map (fun x => if x.id = i then upd x else x) := by
  have hp : ((fun x : Document => decide (x.id = i)) ∘
      fun x => if x.id = i then upd x else x) =
        (fun x : Document => decide (x.id = i)) := by
    funext x
    by_cases hx : x.id = i
    · simp [Function.comp, hx, hid]
    · simp [Function.comp, hx]
  rw [List.find?_map, hp]

theorem find?_of_mem_nodup (l : List Document) (d : Document) (hmem : d ∈ l)
    (hnodup : (l.map (·.id)).Nodup) :
    l.find? (fun x => x.id = d.id) = some d := by
  induction l with
  | nil => cases hmem
  | cons a t ih =>
    rw [List.map_cons, List.nodup_cons] at hnodup
    by_cases ha : a.id = d.id
    · rcases List.mem_cons.mp hmem with rfl | hm
      · simp [List.find?_cons]
      · exact absurd (by rw [ha]; exact List.mem_map_of_mem _ hm) hnodup.1
    · rcases List.mem_cons.mp hmem with rfl | hm
      · exact absurd rfl ha
      · rw [List.find?_cons_of_neg _ (by simpa using ha)]
        exact ih hm hnodup.2

theorem getDocument_updateDocumentPath (db : DB) (d : Document)
    (p t : String) (now : Nat) (hmem : d ∈ db.docs)
    (hnodup : (db.docs.map (·.id)).Nodup) :
    getDocument (updateDocumentPath db d.id p t now) d.id =
      some { d with filePath := p, title := t, updatedAt := now } := by
  unfold getDocument updateDocumentPath
  dsimp only
  rw [find?_id_map_ite db.docs d.id
    (fun x => { x with filePath := p, title := t, updatedAt := now })
    (fun x => rfl)]
  rw [find?_of_mem_nodup _ _ hmem hnodup]
  simp

/-- C8, amended: when the path lookup misses and a completed document with the
same content hash exists, `ingest_file` takes the rename branch: the document
id is preserved, the chunk and embedding sets are untouched, no document row
is added or removed, and exactly the path, the title, and the `updated_at`
timestamp of that document change (`update_document_path` sets
`updated_at = datetime('now')` as well). -/
theorem ingestFile_rename (db : DB) (path : String) (env : IngestEnv)
    (existing : Document)
    (hlic : env.licensed = true)
    (hsize : env.fileSize ≤ maxFileSize)
    (hnodup : (db.docs.map (·.id)).Nodup)
    (hpath : getDocumentByPath env.canon db path = none)
    (hhash : getDocumentByHash db env.fileHash = some existing)
    (hstatus : existing.status = .completed) :
    ingestFile db path env =
      some (updateDocumentPath db existing.id path env.fileName env.time,
        .ok { existing with
              filePath := path
              title := env.fileName
              updatedAt := env.time }) ∧
    (updateDocumentPath db existing.id path env.fileName env.time).chunks =
      db.chunks ∧
    (updateDocumentPath db existing.id path env.fileName env.time).embeddings =
      db.embeddings ∧
    (updateDocumentPath db existing.id path env.fileName env.time).docs.length =
      db.docs.length := by
  have hmem : existing ∈ db.docs := List.mem_of_find?_eq_some hhash
  refine ⟨?_, rfl, rfl, by simp [updateDocumentPath]⟩
  unfold ingestFile
  rw [if_neg (by simp [hlic])]
  unfold ingestFileCore
  rw [if_neg (by omega), hpath]
  unfold ingestHashBranch
  rw [hhash]
  dsimp only
  rw [if_pos hstatus]
  rw [getDocument_updateDocumentPath db existing path env.fileName env.time hmem hnodup]

def c8Doc : Document :=
  { id := "doc-7", title := "a.md", filePath := "C:\\docs\\a.md",
    fileType := .markdown, fileSize := 11, fileHash := "h8", mimeType := none,
    createdAt := 0, updatedAt := 0, ingestedAt := some 0, status := .completed,
    errorMessage := none, metadata := "{}" }

def c8Chunk : ChunkRow :=
  { id := 1, documentId := "doc-7", chunkIndex := 0, content := "hello world",
    tokenCount := 3, pageNumber := none, timestampStart := none,
    timestampEnd := none, topics := [] }

def c8DB : DB :=
  { docs := [c8Doc], chunks := [c8Chunk],
    embeddings := [{ chunkId := 1, embedding := [1, 0] }], nextChunkId := 2 }

def c8Env : IngestEnv :=
  { canon := fun _ => none, fileSize := 11, fileHash := "h8",
    fileName := "b.md", extension := "md", mimeType := none,
    newDocId := "doc-x", time := 1, genTitle := none, proc := okProcEnv,
    licensed := true, trialLimit := 25 }

/-- Document value `c8Doc` after the rename branch ran at clock 1. -/
def c8Renamed : Document :=
  { c8Doc with
    filePath := "C:/docs/b.md"
    title := "b.md"
    updatedAt := 1 }

/-- C8, counterexample: the rename branch does not leave "all other document
fields unchanged" — it also sets `updated_at`: re-ingesting the renamed file
returns the document with `updated_at` changed from 0 to the current clock 1
(id, chunks and embeddings preserved). -/
theorem ingestFile_rename_changes_updatedAt :
    (ingestFile c8DB "C:/docs/b.md" c8Env).map (fun p => p.2) =
      some (.ok c8Renamed) ∧
    ¬ c8Renamed.updatedAt = c8Doc.updatedAt := by
  constructor
  · decide
  · decide

/-- C8, witness: the amended rename frame condition at the concrete renamed
file. -/
theorem ingestFile_rename_witness :
    ingestFile c8DB "C:/docs/b.md" c8Env =
      some (updateDocumentPath c8DB "doc-7" "C:/docs/b.md" "b.md" 1,
        .ok c8Renamed) ∧
    (updateDocumentPath c8DB "doc-7" "C:/docs/b.md" "b.md" 1).chunks =
      c8DB.chunks ∧
    (updateDocumentPath c8DB "doc-7" "C:/docs/b.md" "b.md" 1).embeddings =
      c8DB.embeddings ∧
    (updateDocumentPath c8DB "doc-7" "C:/docs/b.md" "b.md" 1).docs.length =
      c8DB.docs.length :=
  ingestFile_rename c8DB "C:/docs/b.md" c8Env c8Doc rfl (by decide) (by decide)
    (by decide) (by decide) rfl

end RecallOS

namespace RecallOS

/-! ### C2 — helper lemmas about the pipeline state -/

theorem chunkRowsOfPieces_docId (documentId : String) (base : Nat)
    (page : Option Nat) (pieces : List (List Char × Nat)) :
    ∀ r ∈ chunkRowsOfPieces documentId base page pieces, r.documentId = documentId := by
  intro r hr
  simp only [chunkRowsOfPieces, List.mem_map] at hr
  obtain ⟨p, _, rfl⟩ := hr
  rfl

theorem chunkPages_docId (self : Chunker) (bpe : List Char → Nat)
    (documentId : String) (pages : List String) :
    ∀ pageNum acc rows, chunkPages self bpe documentId pages pageNum acc = some rows →
      (∀ r ∈ acc, r.documentId = documentId) → ∀ r ∈ rows, r.documentId = documentId := by
  induction pages with
  | nil =>
    intro pageNum acc rows h hacc
    obtain rfl : acc = rows := by simpa [chunkPages] using h
    exact hacc
  | cons pageText rest ih =>
    intro pageNum acc rows h hacc
    unfold chunkPages at h
    rcases hct : self.chunkText bpe pageText.data with _ | pieces
    · rw [hct] at h; simp at h
    · rw [hct] at h
      refine ih _ _ _ h ?_
      intro r hr
      rcases List.mem_append.mp hr with hr' | hr'
      · exact hacc r hr'
      · exact chunkRowsOfPieces_docId _ _ _ _ r hr'

theorem chunkSegments_docId (self : Chunker) (bpe : List Char → Nat)
    (documentId : String) (segments : List TimedSegment) :
    ∀ acc rows, chunkSegments self bpe documentId segments acc = some rows →
      (∀ r ∈ acc, r.documentId = documentId) → ∀ r ∈ rows, r.documentId = documentId := by
  induction segments with
  | nil =>
    intro acc rows h hacc
    obtain rfl : acc = rows := by simpa [chunkSegments] using h
    exact hacc
  | cons seg rest ih =>
    intro acc rows h hacc
    unfold chunkSegments at h
    rcases hct : self.chunkText bpe seg.text.data with _ | pieces
    · rw [hct] at h; simp at h
    · rw [hct] at h
      refine ih _ _ h ?_
      intro r hr
      rcases List.mem_append.mp hr with hr' | hr'
      · exact hacc r hr'
      · simp only [List.mem_map] at hr'
        obtain ⟨p, _, rfl⟩ := hr'
        rfl

theorem chunk_docId (self : Chunker) (bpe : List Char → Nat) (documentId : String)
    (content : ExtractedContent) (rows : List ChunkRow)
    (h : self.chunk bpe documentId content = some rows) :
    ∀ r ∈ rows, r.documentId = documentId := by
  unfold Chunker.chunk at h
  rcases content with ⟨text, pages⟩ | segments
  · rcases pages with _ | pages
    all_goals dsimp only at h
    · rcases hct : self.chunkText bpe text.data with _ | pieces
      · rw [hct] at h; simp at h
      · rw [hct] at h
        obtain rfl : chunkRowsOfPieces documentId 0 none pieces = rows := by
          simpa using h
        exact chunkRowsOfPieces_docId _ _ _ _
    · exact chunkPages_docId self bpe documentId pages 0 [] rows h (by simp)
  · exact chunkSegments_docId self bpe documentId segments [] rows h (by simp)

theorem docs_insertChunks (db : DB) (cs : List ChunkRow) :
    (insertChunks db cs).1.docs = db.docs := by
  unfold insertChunks
  rcases cs with _ | ⟨r0, rs⟩
  · rfl
  · dsimp only
    split <;> rfl

theorem embeddings_insertChunks (db : DB) (cs : List ChunkRow) :
    (insertChunks db cs).1.embeddings = db.embeddings := by
  unfold insertChunks
  rcases cs with _ | ⟨r0, rs⟩
  · rfl
  · dsimp only
    split <;> rfl

theorem insertChunks_success (db : DB) (r0 : ChunkRow) (rs : List ChunkRow)
    (h : (getDocument db r0.documentId).isSome = true) :
    insertChunks db (r0 :: rs) =
      ({ db with
         chunks := db.chunks ++ assignIds (r0 :: rs) db.nextChunkId
         nextChunkId := db.nextChunkId + (r0 :: rs).length },
       .ok ((assignIds (r0 :: rs) db.nextChunkId).map (·.id))) := by
  unfold insertChunks
  dsimp only
  rw [if_pos h]

theorem getDocument_insertDocument_fresh (db : DB) (doc : Document)
    (hfresh : getDocument db doc.id = none) :
    getDocument (insertDocument db doc) doc.id = some doc := by
  unfold getDocument insertDocument at *
  dsimp only
  rw [List.find?_append, hfresh]
  simp [List.find?]

theorem getDocument_updateDocumentStatus (db : DB) (i : String)
    (st : DocumentStatus) (em : Option String) (t : Nat) (d : Document)
    (h : getDocument db i = some d) :
    getDocument (updateDocumentStatus db i st em t) i =
      some { d with
             status := st
             errorMessage := em
             updatedAt := t
             ingestedAt := if st = .completed then some t else d.ingestedAt } := by
  have hdi : d.id = i := by simpa using List.find?_some h
  unfold getDocument updateDocumentStatus at *
  dsimp only
  rw [find?_id_map_ite db.docs i
    (fun x => { x with
                status := st
                errorMessage := em
                updatedAt := t
                ingestedAt := if st = .completed then some t else x.ingestedAt })
    (fun x => rfl)]
  rw [h]
  simp [hdi]

theorem embeddingsOfDoc_of_no_chunks (db : DB) (i : String)
    (h : chunksOfDoc db i = []) : embeddingsOfDoc db i = [] := by
  unfold embeddingsOfDoc
  rw [h]
  simp

end RecallOS

namespace RecallOS

theorem createDocument_id (env : IngestEnv) (path : String) :
    (createDocument env path).id = env.newDocId := rfl

theorem createDocument_fileType (env : IngestEnv) (path : String) :
    (createDocument env path).fileType = FileType.fromExtension env.extension := rfl

theorem processDocument_cancel_after_extract (db1 : DB) (doc : Document)
    (penv : ProcEnv) (ec : ExtractedContent)
    (hnc0 : penv.cancelBeforeStart = false)
    (hc1 : penv.cancelAfterExtract = true)
    (hft : ¬ doc.fileType = FileType.unknown)
    (hllm : penv.llmConfigured = true)
    (hext : penv.extractResult = .ok ec) :
    processDocument db1 doc penv =
      some (updateDocumentStatus db1 doc.id .processing none penv.time,
        .error (.Ingestion "Ingestion cancelled")) := by
  unfold processDocument
  rw [if_neg (by rw [hnc0]; exact Bool.false_ne_true)]
  rw [if_neg hft]
  rw [if_neg (by rw [hllm]; simp)]
  rw [hext]
  dsimp only
  rw [if_pos hc1]

theorem processDocument_cancel_after_chunk (db1 : DB) (doc : Document)
    (penv : ProcEnv) (ec : ExtractedContent) (cs : List ChunkRow)
    (hnc0 : penv.cancelBeforeStart = false)
    (hnc1 : penv.cancelAfterExtract = false)
    (hc2 : penv.cancelAfterChunk = true)
    (hft : ¬ doc.fileType = FileType.unknown)
    (hllm : penv.llmConfigured = true)
    (hext : penv.extractResult = .ok ec)
    (hchunks : Chunker.chunk ⟨penv.chunkSize, penv.chunkOverlap⟩ penv.bpe doc.id ec =
      some cs)
    (hne : ¬ cs = [])
    (hsome : ∀ r0 rs, cs = r0 :: rs →
      (getDocument (updateDocumentStatus db1 doc.id .processing none penv.time)
        r0.documentId).isSome = true) :
    processDocument db1 doc penv =
      some ((insertChunks
          (updateDocumentStatus db1 doc.id .processing none penv.time) cs).1,
        .error (.Ingestion "Ingestion cancelled")) := by
  obtain ⟨r0, rs, rfl⟩ : ∃ r0 rs, cs = r0 :: rs := by
    cases cs with
    | nil => exact absurd rfl hne
    | cons a b => exact ⟨a, b, rfl⟩
  unfold processDocument
  rw [if_neg (by rw [hnc0]; exact Bool.false_ne_true)]
  rw [if_neg hft]
  rw [if_neg (by rw [hllm]; simp)]
  rw [hext]
  dsimp only
  rw [if_neg (by rw [hnc1]; exact Bool.false_ne_true)]
  rw [hchunks]
  dsimp only
  rw [if_neg (by simp)]
  rw [insertChunks_success _ r0 rs (hsome r0 rs rfl)]
  dsimp only
  rw [if_pos hc2]

theorem ingestRun_of_processDocument_error (db : DB) (path : String)
    (env : IngestEnv) (dbp : DB) (e : RecallError)
    (h : processDocument (insertDocument db (createDocument env path))
      (createDocument env path) env.proc = some (dbp, .error e)) :
    ingestRun db path env =
      some (updateDocumentStatus dbp (createDocument env path).id .failed
        (some e.toMessage) env.time, .error e) := by
  unfold ingestRun
  dsimp only
  rw [h]

end RecallOS

namespace RecallOS

theorem assignIds_mem (cs : List ChunkRow) (n : Nat) :
    ∀ c ∈ assignIds cs n, (∃ r ∈ cs, c.documentId = r.documentId) ∧ n ≤ c.id := by
  intro c hc
  simp only [assignIds, List.mem_map] at hc
  obtain ⟨p, hp, rfl⟩ := hc
  exact ⟨⟨p.2, List.snd_mem_of_mem_enum hp, rfl⟩, Nat.le_add_right n p.1⟩

theorem assignIds_length (cs : List ChunkRow) (n : Nat) :
    (assignIds cs n).length = cs.length := by
  simp [assignIds, List.enum_length]

theorem getDocument_congr (db db' : DB) (h : db.docs = db'.docs) (i : String) :
    getDocument db i = getDocument db' i := by
  unfold getDocument
  rw [h]

theorem frame_after_failUpdate (dbx : DB) (i : String) (em : Option String)
    (t : Nat) (d : Document) (hget : getDocument dbx i = some d) :
    (getDocument (updateDocumentStatus dbx i .failed em t) i).map Document.status =
      some .failed ∧
    chunksOfDoc (updateDocumentStatus dbx i .failed em t) i = chunksOfDoc dbx i ∧
    embeddingsOfDoc (updateDocumentStatus dbx i .failed em t) i =
      embeddingsOfDoc dbx i := by
  refine ⟨?_, rfl, rfl⟩
  rw [getDocument_updateDocumentStatus _ _ _ _ _ _ hget]
  rfl

theorem ingestFile_fresh_run (db : DB) (path : String) (env : IngestEnv)
    (hlic : env.licensed = true)
    (hsize : env.fileSize ≤ maxFileSize)
    (hpath : getDocumentByPath env.canon db path = none)
    (hhash : getDocumentByHash db env.fileHash = none) :
    ingestFile db path env = ingestRun db path env := by
  unfold ingestFile
  rw [if_neg (by simp [hlic])]
  unfold ingestFileCore
  rw [if_neg (by omega), hpath]
  unfold ingestHashBranch
  rw [hhash]

theorem embeddingsOfDoc_eq_nil (db' : DB) (i : String)
    (h : ∀ e ∈ db'.embeddings,
      ¬ (chunksOfDoc db' i).any (fun c => c.id = e.chunkId) = true) :
    embeddingsOfDoc db' i = [] := by
  unfold embeddingsOfDoc
  exact List.filter_eq_nil_iff.mpr h

theorem cancel_before_chunks_frame (db : DB) (doc : Document)
    (em : Option String) (tp t : Nat) (i : String)
    (hdi : doc.id = i)
    (hfreshDoc : getDocument db i = none)
    (hfreshChunks : chunksOfDoc db i = []) :
    (getDocument (updateDocumentStatus (updateDocumentStatus
        (insertDocument db doc) i .processing none tp) i .failed em t) i).map
      Document.status = some .failed ∧
    chunksOfDoc (updateDocumentStatus (updateDocumentStatus
      (insertDocument db doc) i .processing none tp) i .failed em t) i = [] ∧
    embeddingsOfDoc (updateDocumentStatus (updateDocumentStatus
      (insertDocument db doc) i .processing none tp) i .failed em t) i = [] := by
  have g1 : getDocument (insertDocument db doc) i = some doc := by
    have := getDocument_insertDocument_fresh db doc (by rw [hdi]; exact hfreshDoc)
    rwa [hdi] at this
  have g2 := getDocument_updateDocumentStatus (insertDocument db doc) i
    .processing none tp doc g1
  have hframe := frame_after_failUpdate
    (updateDocumentStatus (insertDocument db doc) i .processing none tp)
    i em t _ g2
  have hchunks2 : chunksOfDoc (updateDocumentStatus (insertDocument db doc) i
      .processing none tp) i = [] := hfreshChunks
  refine ⟨hframe.1, ?_, ?_⟩
  · rw [hframe.2.1]
    exact hchunks2
  · rw [hframe.2.2]
    exact embeddingsOfDoc_of_no_chunks _ _ hchunks2

theorem cancel_after_chunk_frame (db : DB) (doc : Document) (cs : List ChunkRow)
    (em : Option String) (tp t : Nat) (i : String)
    (hdi : doc.id = i)
    (hfreshDoc : getDocument db i = none)
    (hfreshChunks : chunksOfDoc db i = [])
    (hembed : ∀ e ∈ db.embeddings, e.chunkId < db.nextChunkId)
    (hcsdoc : ∀ r ∈ cs, r.documentId = i)
    (hne : ¬ cs = []) :
    (getDocument (updateDocumentStatus
        ({ updateDocumentStatus (insertDocument db doc) i .processing none tp with
           chunks := (updateDocumentStatus (insertDocument db doc) i
             .processing none tp).chunks ++ assignIds cs
               (updateDocumentStatus (insertDocument db doc) i
                 .processing none tp).nextChunkId
           nextChunkId := (updateDocumentStatus (insertDocument db doc) i
             .processing none tp).nextChunkId + cs.length } : DB)
        i .failed em t) i).map Document.status = some .failed ∧
    ¬ chunksOfDoc (updateDocumentStatus
        ({ updateDocumentStatus (insertDocument db doc) i .processing none tp with
           chunks := (updateDocumentStatus (insertDocument db doc) i
             .processing none tp).chunks ++ assignIds cs
               (updateDocumentStatus (insertDocument db doc) i
                 .processing none tp).nextChunkId
           nextChunkId := (updateDocumentStatus (insertDocument db doc) i
             .processing none tp).nextChunkId + cs.length } : DB)
        i .failed em t) i = [] ∧
    embeddingsOfDoc (updateDocumentStatus
        ({ updateDocumentStatus (insertDocument db doc) i .processing none tp with
           chunks := (updateDocumentStatus (insertDocument db doc) i
             .processing none tp).chunks ++ assignIds cs
               (updateDocumentStatus (insertDocument db doc) i
                 .processing none tp).nextChunkId
           nextChunkId := (updateDocumentStatus (insertDocument db doc) i
             .processing none tp).nextChunkId + cs.length } : DB)
        i .failed em t) i = [] := by
  have g1 : getDocument (insertDocument db doc) i = some doc := by
    have := getDocument_insertDocument_fresh db doc (by rw [hdi]; exact hfreshDoc)
    rwa [hdi] at this
  have g2 := getDocument_updateDocumentStatus (insertDocument db doc) i
    .processing none tp doc g1
  have g3 := (getDocument_congr
    ({ updateDocumentStatus (insertDocument db doc) i .processing none tp with
       chunks := (updateDocumentStatus (insertDocument db doc) i
         .processing none tp).chunks ++ assignIds cs
           (updateDocumentStatus (insertDocument db doc) i
             .processing none tp).nextChunkId
       nextChunkId := (updateDocumentStatus (insertDocument db doc) i
         .processing none tp).nextChunkId + cs.length } : DB)
    (updateDocumentStatus (insertDocument db doc) i .processing none tp)
    rfl i).trans g2
  have hframe := frame_after_failUpdate _ i em t _ g3
  have hsplit : chunksOfDoc
      ({ updateDocumentStatus (insertDocument db doc) i .processing none tp with
         chunks := (updateDocumentStatus (insertDocument db doc) i
           .processing none tp).chunks ++ assignIds cs
             (updateDocumentStatus (insertDocument db doc) i
               .processing none tp).nextChunkId
         nextChunkId := (updateDocumentStatus (insertDocument db doc) i
           .processing none tp).nextChunkId + cs.length } : DB) i =
      assignIds cs db.nextChunkId := by
    show (db.chunks ++ assignIds cs db.nextChunkId).filter
      (fun c => c.documentId = i) = assignIds cs db.nextChunkId
    rw [List.filter_append]
    have hfc : db.chunks.filter (fun c => c.documentId = i) = [] := hfreshChunks
    rw [hfc, List.nil_append]
    refine List.filter_eq_self.mpr ?_
    intro c hc
    obtain ⟨⟨r, hr, hcr⟩, _⟩ := assignIds_mem _ _ c hc
    simp [hcr, hcsdoc r hr]
  refine ⟨hframe.1, ?_, ?_⟩
  · rw [hframe.2.1, hsplit]
    intro h0
    have hlen := assignIds_length cs db.nextChunkId
    rw [h0] at hlen
    exact hne (List.eq_nil_of_length_eq_zero hlen.symm)
  · rw [hframe.2.2]
    refine embeddingsOfDoc_eq_nil _ _ ?_
    intro e he
    rw [hsplit]
    have hlt := hembed e he
    simp only [List.any_eq_true, decide_eq_true_eq, not_exists, not_and]
    intro c hc
    obtain ⟨_, hle⟩ := assignIds_mem _ _ c hc
    omega

/-- C2, amended: the "non-empty chunk set implies completed" invariant fails.
What holds instead: an ingestion of a fresh file that is cancelled *before*
the chunks are inserted (at the post-extraction checkpoint) marks the document
failed and leaves no chunk rows and no embedding rows; an ingestion that is
cancelled *after* the chunks were inserted (at the post-chunking checkpoint,
i.e. before embedding) marks the document failed and writes no embedding
rows, but the already-inserted chunk rows remain — producing a failed
document with a non-empty chunk set. -/
theorem ingestFile_cancellation_frame (db : DB) (path : String)
    (env : IngestEnv) (ec : ExtractedContent) (cs : List ChunkRow)
    (hlic : env.licensed = true)
    (hsize : env.fileSize ≤ maxFileSize)
    (hpath : getDocumentByPath env.canon db path = none)
    (hhash : getDocumentByHash db env.fileHash = none)
    (hnc0 : env.proc.cancelBeforeStart = false)
    (hft : ¬ FileType.fromExtension env.extension = FileType.unknown)
    (hllm : env.proc.llmConfigured = true)
    (hext : env.proc.extractResult = .ok ec)
    (hchunks : Chunker.chunk ⟨env.proc.chunkSize, env.proc.chunkOverlap⟩
      env.proc.bpe env.newDocId ec = some cs)
    (hne : ¬ cs = [])
    (hfreshDoc : getDocument db env.newDocId = none)
    (hfreshChunks : chunksOfDoc db env.newDocId = [])
    (hembed : ∀ e ∈ db.embeddings, e.chunkId < db.nextChunkId) :
    (env.proc.cancelAfterExtract = true →
      ∃ db', ingestFile db path env =
          some (db', .error (.Ingestion "Ingestion cancelled")) ∧
        (getDocument db' env.newDocId).map Document.status = some .failed ∧
        chunksOfDoc db' env.newDocId = [] ∧
        embeddingsOfDoc db' env.newDocId = []) ∧
    (env.proc.cancelAfterExtract = false → env.proc.cancelAfterChunk = true →
      ∃ db', ingestFile db path env =
          some (db', .error (.Ingestion "Ingestion cancelled")) ∧
        (getDocument db' env.newDocId).map Document.status = some .failed ∧
        ¬ chunksOfDoc db' env.newDocId = [] ∧
        embeddingsOfDoc db' env.newDocId = []) := by
  have hfile := ingestFile_fresh_run db path env hlic hsize hpath hhash
  constructor
  · intro hc1
    have hp := processDocument_cancel_after_extract
      (insertDocument db (createDocument env path)) (createDocument env path)
      env.proc ec hnc0 hc1 (by rw [createDocument_fileType]; exact hft) hllm hext
    have hrun := ingestRun_of_processDocument_error db path env _ _ hp
    rw [createDocument_id] at hrun
    refine ⟨_, by rw [hfile]; exact hrun, ?_⟩
    exact cancel_before_chunks_frame db (createDocument env path) _ _ _
      env.newDocId (createDocument_id env path) hfreshDoc hfreshChunks
  · intro hc1 hc2
    obtain ⟨r0, rs, rfl⟩ : ∃ r0 rs, cs = r0 :: rs := by
      cases cs with
      | nil => exact absurd rfl hne
      | cons a b => exact ⟨a, b, rfl⟩
    have hdocid := chunk_docId ⟨env.proc.chunkSize, env.proc.chunkOverlap⟩
      env.proc.bpe env.newDocId ec (r0 :: rs) hchunks
    have g1 : getDocument (insertDocument db (createDocument env path))
        env.newDocId = some (createDocument env path) := by
      have := getDocument_insertDocument_fresh db (createDocument env path)
        (by rw [createDocument_id]; exact hfreshDoc)
      rwa [createDocument_id] at this
    have g2 := getDocument_updateDocumentStatus
      (insertDocument db (createDocument env path)) env.newDocId
      .processing none env.proc.time (createDocument env path) g1
    have hsome : ∀ a as, r0 :: rs = a :: as →
        (getDocument (updateDocumentStatus
          (insertDocument db (createDocument env path))
          (createDocument env path).id .processing none env.proc.time)
          a.documentId).isSome = true := by
      intro a as hcs
      have ha : a.documentId = env.newDocId :=
        hdocid a (hcs ▸ List.mem_cons_self a as)
      rw [ha, createDocument_id, g2]
      rfl
    have hp := processDocument_cancel_after_chunk
      (insertDocument db (createDocument env path)) (createDocument env path)
      env.proc ec (r0 :: rs) hnc0 hc1 hc2
      (by rw [createDocument_fileType]; exact hft) hllm hext
      (by rw [createDocument_id]; exact hchunks) hne hsome
    rw [insertChunks_success _ r0 rs (hsome r0 rs rfl)] at hp
    have hrun := ingestRun_of_processDocument_error db path env _ _ hp
    rw [createDocument_id] at hrun
    refine ⟨_, by rw [hfile]; exact hrun, ?_⟩
    exact cancel_after_chunk_frame db (createDocument env path) (r0 :: rs) _ _ _
      env.newDocId (createDocument_id env path) hfreshDoc hfreshChunks hembed
      hdocid hne

end RecallOS

namespace RecallOS

/-- Ingestion environment that cancels at the post-chunking checkpoint
(cancel issued while embedding was about to run). -/
def c2Env : IngestEnv :=
  { canon := fun _ => none, fileSize := 11, fileHash := "h2",
    fileName := "a.txt", extension := "txt", mimeType := none,
    newDocId := "doc-1", time := 7, genTitle := none,
    proc := { okProcEnv with cancelAfterChunk := true },
    licensed := true, trialLimit := 25 }

def c2DB : DB :=
  ((ingestFile emptyDB "/tmp/a.txt" c2Env).getD (emptyDB, .error (.Other ""))).1

/-- C2, counterexample: a reachable store state (one `ingest_file` call from a
fresh store, cancelled after the chunks were inserted) holds a document in
status failed whose chunk set is non-empty — refuting the invariant "every
document with a non-empty chunk set is completed" and the "no leftover
chunks" expectation for cancellation (no embedding rows are present, as
claimed). -/
theorem reachable_failed_document_with_chunks :
    ∃ dbr, Reachable dbr ∧
      (getDocument dbr "doc-1").map Document.status = some .failed ∧
      ¬ chunksOfDoc dbr "doc-1" = [] ∧
      embeddingsOfDoc dbr "doc-1" = [] := by
  refine ⟨c2DB, ?_, ?_, ?_, ?_⟩
  · exact Reachable.ingest Reachable.init
      (show ingestFile emptyDB "/tmp/a.txt" c2Env =
        some (c2DB, .error (.Ingestion "Ingestion cancelled")) from rfl)
  · decide
  · decide
  · decide

/-- Chunk row produced by the chunker for the witness run. -/
def c2ChunkRow : ChunkRow :=
  { id := 0, documentId := "doc-1", chunkIndex := 0, content := "hello world",
    tokenCount := 11, pageNumber := none, timestampStart := none,
    timestampEnd := none, topics := [] }

/-- C2, witness: the amended cancellation frame at a concrete run from the
fresh store. -/
theorem ingestFile_cancellation_frame_witness :
    (c2Env.proc.cancelAfterExtract = true →
      ∃ db', ingestFile emptyDB "/tmp/a.txt" c2Env =
          some (db', .error (.Ingestion "Ingestion cancelled")) ∧
        (getDocument db' c2Env.newDocId).map Document.status = some .failed ∧
        chunksOfDoc db' c2Env.newDocId = [] ∧
        embeddingsOfDoc db' c2Env.newDocId = []) ∧
    (c2Env.proc.cancelAfterExtract = false → c2Env.proc.cancelAfterChunk = true →
      ∃ db', ingestFile emptyDB "/tmp/a.txt" c2Env =
          some (db', .error (.Ingestion "Ingestion cancelled")) ∧
        (getDocument db' c2Env.newDocId).map Document.status = some .failed ∧
        ¬ chunksOfDoc db' c2Env.newDocId = [] ∧
        embeddingsOfDoc db' c2Env.newDocId = []) :=
  ingestFile_cancellation_frame emptyDB "/tmp/a.txt" c2Env
    (.text "hello world" none) [c2ChunkRow]
    rfl (by decide) (by decide) (by decide) rfl (by decide) rfl rfl
    (by decide) (by decide) (by decide) (by decide) (by decide)

end RecallOS
